import Mathlib

/-!
Shallow embedding of the color/tone analysis engine of the `next-enterprise`
image-analysis repository, together with theorems settling the specification
claims about it.  Real-valued JavaScript arithmetic is modelled over `ℝ`
(`Math.atan2(y, x)` is `Complex.arg ⟨x, y⟩`, `Math.round x` is `⌊x + 1/2⌋`,
`Math.pow` on nonnegative bases is `Real.rpow`).
-/

open scoped Classical

noncomputable section

/-- JavaScript `Math.round`: round half toward positive infinity. -/
def jsRound (x : ℝ) : ℤ := ⌊x + 1/2⌋

/-- JavaScript `Math.max(...list)` over a non-empty list.  (On the empty list
the source value would be `-Infinity`; every use below is guarded by
non-emptiness, and the `0` default is never observable.) -/
def jsMax : List ℝ → ℝ
  | [] => 0
  | x :: xs => xs.foldl max x

/-- JavaScript `Math.min(...list)` over a non-empty list, same convention as
`jsMax`. -/
def jsMin : List ℝ → ℝ
  | [] => 0
  | x :: xs => xs.foldl min x

/-- Lab color triple (`{l, a, b}` in the source). -/
structure LabColor where
  l : ℝ
  a : ℝ
  b : ℝ

/-- sRGB gamma decode step of `rgbToLab`
(`rr > 0.04045 ? Math.pow((rr + 0.055) / 1.055, 2.4) : rr / 12.92`). -/
def gammaDecode (v : ℝ) : ℝ :=
  if v > 0.04045 then ((v + 0.055) / 1.055) ^ (2.4 : ℝ) else v / 12.92

/-- XYZ→Lab nonlinear compounding step of `rgbToLab`
(`t > 0.008856 ? Math.pow(t, 1 / 3) : 7.787 * t + 16 / 116`). -/
def labF (t : ℝ) : ℝ :=
  if t > 0.008856 then t ^ ((1 : ℝ) / 3) else 7.787 * t + 16 / 116

/-- `rgbToLab` from the color-analysis module: sRGB gamma decode → XYZ via the
fixed matrix → Lab with D65 white point. -/
def rgbToLab (r g b : ℝ) : LabColor :=
  let rr := gammaDecode (r / 255)
  let gg := gammaDecode (g / 255)
  let bb := gammaDecode (b / 255)
  let x := (rr * 0.4124 + gg * 0.3576 + bb * 0.1805) * 100
  let y := (rr * 0.2126 + gg * 0.7152 + bb * 0.0722) * 100
  let z := (rr * 0.0193 + gg * 0.1192 + bb * 0.9505) * 100
  let fx := labF (x / 95.047)
  let fy := labF (y / 100.0)
  let fz := labF (z / 108.883)
  ⟨116 * fy - 16, 500 * (fx - fy), 200 * (fy - fz)⟩

/-- Hue angle from Lab chrominance:
`(Math.atan2(lab.b, lab.a) * 180) / Math.PI + 180`. -/
def hueFromLab (a b : ℝ) : ℝ :=
  Complex.arg ⟨a, b⟩ * 180 / Real.pi + 180

/-- Hue of a `LabColor`. -/
def hueOfLab (lab : LabColor) : ℝ := hueFromLab lab.a lab.b

/-- One decoded pixel sample: 8-bit R, G, B channel values (read from the three
raw channel buffers in `analyzeColorDistribution`). -/
structure RGBPixel where
  r : ℝ
  g : ℝ
  b : ℝ

/-- Per-pixel Lab conversion, `rgbToLab(r, g, b)` applied to a sample. -/
def labOf (p : RGBPixel) : LabColor := rgbToLab p.r p.g p.b

/-- The eight named color bands of `COLOR_RANGES`. -/
inductive ColorChannel where
  | red
  | orange
  | yellow
  | green
  | aqua
  | blue
  | purple
  | magenta
deriving DecidableEq

/-- Hue band `{start, end, center}` (the source's `end` field is a Lean
keyword, so it is called `stop` here). -/
structure ColorRange where
  start : ℝ
  stop : ℝ
  center : ℝ

/-- The static `COLOR_RANGES` table from `constants.ts`. -/
def COLOR_RANGES : ColorChannel → ColorRange
  | .red => ⟨345, 15, 0⟩
  | .orange => ⟨15, 45, 30⟩
  | .yellow => ⟨45, 75, 60⟩
  | .green => ⟨75, 165, 120⟩
  | .aqua => ⟨165, 195, 180⟩
  | .blue => ⟨195, 255, 225⟩
  | .purple => ⟨255, 285, 270⟩
  | .magenta => ⟨285, 345, 315⟩

/-- Wrap-aware hue membership test of `analyzeColorDistribution`:
`range.start > range.end ? hue >= start || hue <= end : hue >= start && hue <= end`. -/
def hueInRange (range : ColorRange) (hue : ℝ) : Prop :=
  if range.start > range.stop then hue ≥ range.start ∨ hue ≤ range.stop
  else hue ≥ range.start ∧ hue ≤ range.stop

/-- A detected histogram peak `{position, height, width}`. -/
structure HistogramPeak where
  position : ℕ
  height : ℝ
  width : ℝ

/-- `smoothArray(arr, sigma)`: Gaussian smoothing with window half-width
`ceil(sigma * 6)`, normalized at each index by the sum of the window weights
actually applied (edge truncation). -/
def smoothArray (arr : List ℝ) (sigma : ℝ) : List ℝ :=
  let windowSize : ℤ := ⌈sigma * 6⌉
  (List.range arr.length).map (fun i =>
    let window := (List.range arr.length).filter
      (fun (j : ℕ) => decide ((i : ℤ) - windowSize ≤ (j : ℤ) ∧ (j : ℤ) ≤ (i : ℤ) + windowSize))
    let sum := (window.map (fun j =>
      arr.getD j 0 * Real.exp (-(((i : ℝ) - (j : ℝ)) * ((i : ℝ) - (j : ℝ))) / (2 * sigma * sigma)))).sum
    let weightSum := (window.map (fun j =>
      Real.exp (-(((i : ℝ) - (j : ℝ)) * ((i : ℝ) - (j : ℝ))) / (2 * sigma * sigma)))).sum
    if weightSum > 0 then sum / weightSum else 0)

/-- `findHistogramPeaks(histogram, mean?, stdev?)`.  With both statistics the
source uses first/second discrete derivatives and a significance filter;
without them it falls back to local-maximum detection with a local-window
standard-deviation width.  All array accesses in the source loops are
in-bounds, so the `typeof`/`isNaN` guards are identically true for the
well-typed histograms modelled here. -/
def findHistogramPeaks (histogram : List ℝ) (mean? stdev? : Option ℝ) : List HistogramPeak :=
  let len := histogram.length
  let maxHeight := jsMax histogram
  let minPeakHeight := maxHeight * 0.01
  match mean?, stdev? with
  | some mean, some stdev =>
    let firstDerivative : ℕ → ℝ := fun i => histogram.getD (i + 1) 0 - histogram.getD i 0
    let secondDerivative : ℕ → ℝ := fun i => firstDerivative (i + 1) - firstDerivative i
    (List.range len).filterMap (fun i =>
      if 1 ≤ i ∧ i + 1 < len ∧ histogram.getD i 0 > minPeakHeight ∧
          firstDerivative (i - 1) > 0 ∧ firstDerivative i < 0 then
        let leftWidth : ℕ :=
          match (List.range i).reverse.find? (fun j => decide (secondDerivative j > 0)) with
          | some j => i - j
          | none => 0
        let rightWidth : ℕ :=
          match (List.range' i (len - 2 - i)).find? (fun j => decide (secondDerivative j > 0)) with
          | some j => j - i
          | none => 0
        let width := max leftWidth rightWidth * 2
        let distanceFromMean := |(i : ℝ) - mean|
        let significance := histogram.getD i 0 / maxHeight *
          Real.exp (-0.5 * (distanceFromMean / stdev) ^ (2 : ℕ))
        if significance > 0.1 then
          some ⟨i, histogram.getD i 0 / maxHeight, (width : ℝ)⟩
        else none
      else none)
  | _, _ =>
    (List.range len).filterMap (fun i =>
      if 1 ≤ i ∧ i + 1 < len ∧ histogram.getD i 0 > minPeakHeight ∧
          histogram.getD i 0 > histogram.getD (i - 1) 0 ∧
          histogram.getD i 0 > histogram.getD (i + 1) 0 then
        let window := (List.range len).filter
          (fun (j : ℕ) => decide ((i : ℤ) - 10 ≤ (j : ℤ) ∧ (j : ℤ) ≤ (i : ℤ) + 10))
        let localSum := (window.map (fun (j : ℕ) => (j : ℝ) * histogram.getD j 0)).sum
        let localCount := (window.map (fun j => histogram.getD j 0)).sum
        if localCount > 0 then
          let localMean := localSum / localCount
          let localVariance :=
            (window.map (fun j => histogram.getD j 0 * ((j : ℝ) - localMean) ^ (2 : ℕ))).sum
          some ⟨i, histogram.getD i 0 / maxHeight, Real.sqrt (localVariance / localCount)⟩
        else none
      else none)

/-- The 360-bin hue histogram accumulated over the in-range pixels
(`histogram[Math.floor(hue)]++`).  A hue of exactly 360 (see the claim about
the hue range) would write past the 360-entry array in the source; such a
count is not captured by any of the 360 bins here either. -/
def hueHistogram (members : List LabColor) : List ℝ :=
  (List.range 360).map (fun i =>
    ((members.filter (fun lab => decide (⌊hueOfLab lab⌋ = (i : ℤ)))).length : ℝ))

/-- Aggregated per-band result `{mean, peaks, histogram, weight}`. -/
structure ColorDistribution where
  mean : LabColor
  peaks : List LabColor
  histogram : List ℝ
  weight : ℝ

/-- Arithmetic mean of a list of Lab values (the `reduce` + divide pattern of
the source). -/
def meanLab (labs : List LabColor) : LabColor :=
  ⟨(labs.map LabColor.l).sum / labs.length,
   (labs.map LabColor.a).sum / labs.length,
   (labs.map LabColor.b).sum / labs.length⟩

/-- `analyzeColorDistribution(buffer, range)`, with the decoded pixel triples
passed directly (channel extraction is the external library's job).  The
`pixels.length === 0` branch returns the zeroed distribution without any
division. -/
def analyzeColorDistribution (pixels : List RGBPixel) (range : ColorRange) : ColorDistribution :=
  let labs := pixels.map labOf
  let members := labs.filter (fun lab => decide (hueInRange range (hueOfLab lab)))
  let histogram := hueHistogram members
  if members.length = 0 then
    ⟨⟨0, 0, 0⟩, [], histogram, 0⟩
  else
    let mean := meanLab members
    let smoothedHistogram := smoothArray histogram 2
    let histogramPeaks := findHistogramPeaks smoothedHistogram none none
    let peaks := histogramPeaks.map (fun peak =>
      let peakPixels := members.filter
        (fun lab => decide (|hueOfLab lab - (peak.position : ℝ)| < peak.width / 2))
      if peakPixels.length = 0 then mean else meanLab peakPixels)
    let weight := (members.length : ℝ) / (pixels.length : ℝ)
    ⟨mean, peaks, histogram, weight⟩

/-- Lab chroma `Math.sqrt(a * a + b * b)`. -/
def chromaOf (lab : LabColor) : ℝ := Real.sqrt (lab.a * lab.a + lab.b * lab.b)

/-- Chroma confidence weight `Math.min(1, chroma / 128)` used for the mean and
each peak by `calculateColorHue`. -/
def chromaConfidence (lab : LabColor) : ℝ := min 1 (chromaOf lab / 128)

/-- Signed angular difference wrapped into [-180, 180] by the two sequential
conditionals of `calculateColorHue`. -/
def wrapHueDiff (hue center : ℝ) : ℝ :=
  let d := hue - center
  let d1 := if d > 180 then d - 360 else d
  if d1 < -180 then d1 + 360 else d1

/-- Accumulated `totalWeight` of `calculateColorHue` (mean plus every peak). -/
def hueTotalWeight (d : ColorDistribution) : ℝ :=
  chromaConfidence d.mean + (d.peaks.map chromaConfidence).sum

/-- Accumulated `totalAdjustment` of `calculateColorHue`. -/
def hueTotalAdjustment (d : ColorDistribution) (center : ℝ) : ℝ :=
  wrapHueDiff (hueOfLab d.mean) center * chromaConfidence d.mean +
    (d.peaks.map (fun p => wrapHueDiff (hueOfLab p) center * chromaConfidence p)).sum

/-- `calculateColorHue(color, buffer)`: weight-0 short circuit, then the
chroma-confidence-weighted mean hue error scaled by `0.75 * weight`. -/
def calculateColorHue (color : ColorChannel) (pixels : List RGBPixel) : ℤ :=
  let colorRange := COLOR_RANGES color
  let distribution := analyzeColorDistribution pixels colorRange
  if distribution.weight = 0 then 0
  else
    let totalAdjustment := hueTotalAdjustment distribution colorRange.center
    let totalWeight := hueTotalWeight distribution
    if totalWeight = 0 then 0
    else jsRound (totalAdjustment / totalWeight * (0.75 * distribution.weight))

/-- Luminance-centering weight `1 - Math.abs(l - 50) / 50` of
`calculateColorSaturation`. -/
def satLumWeight (lab : LabColor) : ℝ := 1 - |lab.l - 50| / 50

/-- Per-term weight `luminanceWeight * distribution.weight` used by
`calculateColorSaturation` for the mean and for each peak. -/
def satTermWeight (d : ColorDistribution) (lab : LabColor) : ℝ :=
  satLumWeight lab * d.weight

/-- Accumulated `totalWeight` of `calculateColorSaturation`. -/
def satTotalWeight (d : ColorDistribution) : ℝ :=
  satTermWeight d d.mean + (d.peaks.map (satTermWeight d)).sum

/-- Accumulated `totalAdjustment` of `calculateColorSaturation`
(target chroma fixed at 60). -/
def satTotalAdjustment (d : ColorDistribution) : ℝ :=
  (chromaOf d.mean - 60) * satTermWeight d d.mean +
    (d.peaks.map (fun p => (chromaOf p - 60) * satTermWeight d p)).sum

/-- `calculateColorSaturation(color, buffer)`: weight-0 short circuit, then
the luminance-weighted chroma error scaled by `1.25`. -/
def calculateColorSaturation (color : ColorChannel) (pixels : List RGBPixel) : ℤ :=
  let colorRange := COLOR_RANGES color
  let distribution := analyzeColorDistribution pixels colorRange
  if distribution.weight = 0 then 0
  else
    let totalAdjustment := satTotalAdjustment distribution
    let totalWeight := satTotalWeight distribution
    if totalWeight = 0 then 0
    else jsRound (totalAdjustment / totalWeight * 1.25)

/-- Tone-curve control point `{input, output, weight}`. -/
structure TonePoint where
  input : ℝ
  output : ℝ
  weight : ℝ

/-- The adaptive S-curve strength of `smoothToneCurve`:
`clamp(0.4 + contrastFactor/128*0.2 + (1 - dynamicRange/255)*0.2, 0.2, 0.8)`
over the mean brightness, the mean absolute deviation and the input span of
the control points. -/
def toneCurveSCurveStrength (points : List TonePoint) : ℝ :=
  let meanBrightness := (points.map TonePoint.input).sum / (points.length : ℝ)
  let contrastFactor :=
    (points.map (fun p => |p.input - meanBrightness|)).sum / (points.length : ℝ)
  let dynamicRange := jsMax (points.map TonePoint.input) - jsMin (points.map TonePoint.input)
  min 0.8 (max 0.2 (0.4 + contrastFactor / 128 * 0.2 + (1 - dynamicRange / 255) * 0.2))

/-- The dynamic control-point count of `smoothToneCurve`:
`min(20, max(5, round(5 + min(weightedCount * totalWeight / count, 3) * 5)))`. -/
def toneCurveNumPoints (points : List TonePoint) : ℤ :=
  let totalWeight := (points.map TonePoint.weight).sum
  let weightedPoints := points.filter (fun p => decide (p.weight > 0.1))
  let basePoints : ℝ := 5
  let complexityFactor :=
    min ((weightedPoints.length : ℝ) * totalWeight / (points.length : ℝ)) 3
  min 20 (max 5 (jsRound (basePoints + complexityFactor * 5)))

/-- The shadow/highlight shoulder points generated by `smoothToneCurve`
(thresholds 64 and 192, offsets proportional to each point's weight, half
weight). -/
def toneCurveShoulderPoints (points : List TonePoint) : List TonePoint :=
  let shadowThreshold : ℝ := 64
  let highlightThreshold : ℝ := 192
  points.flatMap (fun point =>
    if point.input < shadowThreshold then
      let shoulderPos := point.input + point.weight * shadowThreshold
      [⟨shoulderPos, shoulderPos + (point.output - point.input) * 0.5, point.weight * 0.5⟩]
    else if point.input > highlightThreshold then
      let shoulderPos := point.input - (255 - point.input) * point.weight
      [⟨shoulderPos, shoulderPos + (point.output - point.input) * 0.5, point.weight * 0.5⟩]
    else ([] : List TonePoint))

/-- `allPoints` of `smoothToneCurve`: original plus shoulder points, sorted by
input (the JavaScript comparator `a.input - b.input`). -/
def toneCurveAllPoints (points : List TonePoint) : List TonePoint :=
  (points ++ toneCurveShoulderPoints points).mergeSort (fun a b => decide (a.input ≤ b.input))

/-- The `i`-th evenly spaced sampling position
`(i / (numPoints - 1)) * 255` of `smoothToneCurve`. -/
def toneCurvePosition (points : List TonePoint) (i : ℕ) : ℝ :=
  ((i : ℝ) / (((toneCurveNumPoints points) : ℝ) - 1)) * 255

/-- The Gaussian-kernel-weighted blend of the `(output - input)` deltas at a
sampling position (adaptive kernel width `σ = 255/(numPoints*2)*(1+weight)`;
zero when the accumulated kernel weight is not positive). -/
def toneCurveAdjustment (points : List TonePoint) (position : ℝ) : ℝ :=
  let allPoints := toneCurveAllPoints points
  let weightedSum := (allPoints.map (fun point =>
    let distance := |position - point.input|
    let sigma := 255 / (((toneCurveNumPoints points) : ℝ) * 2) * (1 + point.weight)
    let influence := Real.exp (-distance * distance / (2 * sigma * sigma))
    (point.output - point.input) * (point.weight * influence))).sum
  let totalW := (allPoints.map (fun point =>
    let distance := |position - point.input|
    let sigma := 255 / (((toneCurveNumPoints points) : ℝ) * 2) * (1 + point.weight)
    let influence := Real.exp (-distance * distance / (2 * sigma * sigma))
    point.weight * influence)).sum
  if totalW > 0 then weightedSum / totalW else 0

/-- The `i`-th output value of `smoothToneCurve` before rounding: kernel
adjustment plus the parabolic S-curve blend, clamped into [0, 255] last. -/
def toneCurveOutput (points : List TonePoint) (i : ℕ) : ℝ :=
  let position := toneCurvePosition points i
  let adjustment := toneCurveAdjustment points position
  let normalizedPos := position / 255
  let sCurve := normalizedPos + toneCurveSCurveStrength points * Real.sin (Real.pi * normalizedPos)
  let blendFactor := 4 * normalizedPos * (1 - normalizedPos)
  let blendedCurve := normalizedPos * (1 - blendFactor) + sCurve * blendFactor
  max 0 (min 255 (position + adjustment + (blendedCurve - normalizedPos) * 255 * 0.1))

/-- `smoothToneCurve(points)` from `tone-analysis.ts`: `numPoints` entries
`[round(position), round(output)]` sampled at the evenly spaced positions. -/
def smoothToneCurve (points : List TonePoint) : List (ℤ × ℤ) :=
  (List.range (toneCurveNumPoints points).toNat).map
    (fun i => (jsRound (toneCurvePosition points i), jsRound (toneCurveOutput points i)))

/-- 3×3 color-transform matrix; field `mRC` is row `R`, column `C` of the
source's nested-array representation. -/
structure Matrix3x3 where
  m00 : ℝ
  m01 : ℝ
  m02 : ℝ
  m10 : ℝ
  m11 : ℝ
  m12 : ℝ
  m20 : ℝ
  m21 : ℝ
  m22 : ℝ

/-- The identity matrix constant of the LUT module. -/
def IDENTITY_MATRIX : Matrix3x3 := ⟨1, 0, 0, 0, 1, 0, 0, 0, 1⟩

/-- `multiplyMatrices(a, b)`: the row-major 3×3 product written out entry by
entry exactly as in `image-utils.ts`. -/
def multiplyMatrices (a b : Matrix3x3) : Matrix3x3 :=
  ⟨a.m00 * b.m00 + a.m01 * b.m10 + a.m02 * b.m20,
   a.m00 * b.m01 + a.m01 * b.m11 + a.m02 * b.m21,
   a.m00 * b.m02 + a.m01 * b.m12 + a.m02 * b.m22,
   a.m10 * b.m00 + a.m11 * b.m10 + a.m12 * b.m20,
   a.m10 * b.m01 + a.m11 * b.m11 + a.m12 * b.m21,
   a.m10 * b.m02 + a.m11 * b.m12 + a.m12 * b.m22,
   a.m20 * b.m00 + a.m21 * b.m10 + a.m22 * b.m20,
   a.m20 * b.m01 + a.m21 * b.m11 + a.m22 * b.m21,
   a.m20 * b.m02 + a.m21 * b.m12 + a.m22 * b.m22⟩

/-- `calculateHueSaturationMatrix(hue, saturation)`: luma-preserving rotation
with saturation scale (weights 0.213/0.715/0.072). -/
def calculateHueSaturationMatrix (hue saturation : ℝ) : Matrix3x3 :=
  let hueRad := hue * Real.pi / 180
  let cosH := Real.cos hueRad
  let sinH := Real.sin hueRad
  let satFactor := 1 + saturation / 100
  ⟨0.213 + cosH * 0.787 * satFactor,
   0.213 - cosH * 0.213 * satFactor + sinH * 0.143,
   0.213 - cosH * 0.213 * satFactor - sinH * 0.787,
   0.715 - cosH * 0.715 * satFactor - sinH * 0.715,
   0.715 + cosH * 0.285 * satFactor,
   0.715 - cosH * 0.715 * satFactor + sinH * 0.715,
   0.072 - cosH * 0.072 * satFactor + sinH * 0.928,
   0.072 - cosH * 0.072 * satFactor - sinH * 0.283,
   0.072 + cosH * 0.928 * satFactor⟩

/-- `convertToneCurveToMatrix(curve)` from `image-utils.ts`.  The second guard
is the source's truthiness test `!firstPoint?.[0] || !firstPoint?.[1] ||
!lastPoint?.[0] || !lastPoint?.[1]`, which is true whenever any of the four
endpoint coordinates is the (falsy) number 0. -/
def convertToneCurveToMatrix (curve : List (ℝ × ℝ)) : ℝ × ℝ × ℝ :=
  match curve with
  | [] => (1, 0, 0)
  | [_] => (1, 0, 0)
  | p :: q :: rest =>
    let firstPoint := p
    let lastPoint := (q :: rest).getLast (List.cons_ne_nil q rest)
    if firstPoint.1 = 0 ∨ firstPoint.2 = 0 ∨ lastPoint.1 = 0 ∨ lastPoint.2 = 0 then (1, 0, 0)
    else ((lastPoint.2 - firstPoint.2) / (lastPoint.1 - firstPoint.1), 0, 0)

/-- An RGB grid point of the LUT, components in the nominal [0, 1] domain. -/
structure ColorPoint where
  r : ℝ
  g : ℝ
  b : ℝ

/-- `DEFAULT_TONE_CURVE = [[0, 0], [255, 255]]`. -/
def DEFAULT_TONE_CURVE : List (ℝ × ℝ) := [(0, 0), (255, 255)]

/-- The segment-search loop of `applyToneCurve`: first segment whose
normalized input interval contains `value` interpolates; otherwise the value
passes through unchanged. -/
def applyToneCurveLoop (value : ℝ) : List (ℝ × ℝ) → ℝ
  | p1 :: p2 :: rest =>
    if value ≥ p1.1 / 255 ∧ value ≤ p2.1 / 255 then
      p1.2 / 255 + (value - p1.1 / 255) / (p2.1 / 255 - p1.1 / 255) * (p2.2 / 255 - p1.2 / 255)
    else applyToneCurveLoop value (p2 :: rest)
  | _ => value

/-- `applyToneCurve(value, curve)`.  The source's
`validateToneCurvePoints` shape check (pair of non-NaN numbers) is
identically true for the well-typed curves modelled here, so only the
undefined-curve default remains. -/
def applyToneCurve (value : ℝ) (curve : Option (List (ℝ × ℝ))) : ℝ :=
  let toneCurve := match curve with
    | some c => c
    | none => DEFAULT_TONE_CURVE
  applyToneCurveLoop value toneCurve

/-- `applyColorMatrix(point, matrix)`. -/
def applyColorMatrix (point : ColorPoint) (matrix : Matrix3x3) : ColorPoint :=
  ⟨point.r * matrix.m00 + point.g * matrix.m01 + point.b * matrix.m02,
   point.r * matrix.m10 + point.g * matrix.m11 + point.b * matrix.m12,
   point.r * matrix.m20 + point.g * matrix.m21 + point.b * matrix.m22⟩

/-- The fields of the analysis record consumed by the LUT pipeline
(`generateCUBELUT` and its helpers); the remaining ~40 scalar fields of the
source record are never read by this pipeline and are omitted. -/
structure ImageProperties where
  exposure : ℝ
  contrast : ℝ
  redHue : ℝ
  redSaturation : ℝ
  orangeHue : ℝ
  orangeSaturation : ℝ
  yellowHue : ℝ
  yellowSaturation : ℝ
  greenHue : ℝ
  greenSaturation : ℝ
  aquaHue : ℝ
  aquaSaturation : ℝ
  blueHue : ℝ
  blueSaturation : ℝ
  purpleHue : ℝ
  purpleSaturation : ℝ
  toneCurveRed : Option (List (ℝ × ℝ))
  toneCurveGreen : Option (List (ℝ × ℝ))
  toneCurveBlue : Option (List (ℝ × ℝ))
  magentaHue : ℝ
  magentaSaturation : ℝ

/-- `applyToneCurves(point, properties)`. -/
def applyToneCurves (point : ColorPoint) (properties : ImageProperties) : ColorPoint :=
  ⟨applyToneCurve point.r properties.toneCurveRed,
   applyToneCurve point.g properties.toneCurveGreen,
   applyToneCurve point.b properties.toneCurveBlue⟩

/-- Exposure/contrast gain pair. -/
structure ProcessingFactors where
  exposure : ℝ
  contrast : ℝ

/-- `calculateProcessingFactors(properties)`: clamp exposure to [-10, 10] and
contrast to [-100, 100], then `2^(exposure/2)` and
`min(5, tan((contrast + 100) * π / 400))`.  (`x || 0` is the identity on a
present numeric field.) -/
def calculateProcessingFactors (properties : ImageProperties) : ProcessingFactors :=
  let normalizedExposure := max (-10) (min 10 properties.exposure)
  let normalizedContrast := max (-100) (min 100 properties.contrast)
  ⟨(2 : ℝ) ^ (normalizedExposure / 2),
   min 5.0 (Real.tan ((normalizedContrast + 100) * Real.pi / 400))⟩

/-- `applyFactors(point, factors)`: multiply by both gains and clamp each
component to [0, 1] last. -/
def applyFactors (point : ColorPoint) (factors : ProcessingFactors) : ColorPoint :=
  ⟨max 0 (min 1 (point.r * factors.exposure * factors.contrast)),
   max 0 (min 1 (point.g * factors.exposure * factors.contrast)),
   max 0 (min 1 (point.b * factors.exposure * factors.contrast))⟩

/-- `calculateColorMatrixFromProperties(properties)`: fold the per-band
hue/saturation matrices onto the identity in the fixed band order, skipping
bands whose two adjustments are both (falsy) 0. -/
def calculateColorMatrixFromProperties (properties : ImageProperties) : Matrix3x3 :=
  let colorRanges : List (ℝ × ℝ) :=
    [(properties.redHue, properties.redSaturation),
     (properties.orangeHue, properties.orangeSaturation),
     (properties.yellowHue, properties.yellowSaturation),
     (properties.greenHue, properties.greenSaturation),
     (properties.aquaHue, properties.aquaSaturation),
     (properties.blueHue, properties.blueSaturation),
     (properties.purpleHue, properties.purpleSaturation),
     (properties.magentaHue, properties.magentaSaturation)]
  colorRanges.foldl (fun resultMatrix hs =>
    if hs.1 ≠ 0 ∨ hs.2 ≠ 0 then
      multiplyMatrices resultMatrix (calculateHueSaturationMatrix hs.1 hs.2)
    else resultMatrix) IDENTITY_MATRIX

/-- `LUT_SIZE = 32`. -/
def LUT_SIZE : ℕ := 32

/-- One grid entry of `generateCUBELUT`: the initial point
`(r * step, g * step, b * step)` with `step = 1 / (LUT_SIZE - 1)`, then the
color matrix, the tone curves and the processing factors in sequence. -/
def lutEntry (properties : ImageProperties) (r g b : ℕ) : ColorPoint :=
  let step : ℝ := 1 / ((LUT_SIZE : ℝ) - 1)
  applyFactors
    (applyToneCurves
      (applyColorMatrix ⟨(r : ℝ) * step, (g : ℝ) * step, (b : ℝ) * step⟩
        (calculateColorMatrixFromProperties properties))
      properties)
    (calculateProcessingFactors properties)

/-- The grid-entry list emitted by `generateCUBELUT`'s triple loop (`b`
outermost, then `g`, then `r` innermost); string formatting of each entry is
left to the emitter.  `calculateColorMatrixFromProperties` always returns a
matrix (a truthy value), so the `|| IDENTITY_MATRIX` fallback is the computed
matrix itself. -/
def generateCUBELUTPoints (properties : ImageProperties) : List ColorPoint :=
  (List.range LUT_SIZE).flatMap (fun b =>
    (List.range LUT_SIZE).flatMap (fun g =>
      (List.range LUT_SIZE).map (fun r => lutEntry properties r g b)))

/-- A neutral analysis record used to instantiate the universally quantified
theorems at a concrete input. -/
def defaultImageProperties : ImageProperties :=
  ⟨0, 0, 0, 0, 0, 0, 0, 0, 0, 0, 0, 0, 0, 0, 0, 0,
   some DEFAULT_TONE_CURVE, some DEFAULT_TONE_CURVE, some DEFAULT_TONE_CURVE, 0, 0⟩

end

theorem foldl_max_init (xs : List ℝ) (a : ℝ) : a ≤ xs.foldl max a := by
  induction xs generalizing a with
  | nil => simp
  | cons y ys ih => exact le_trans (le_max_left a y) (ih (max a y))

theorem foldl_max_mem : ∀ (xs : List ℝ) (a x : ℝ), x ∈ xs → x ≤ xs.foldl max a
  | y :: ys, a, x, h => by
    rcases List.mem_cons.mp h with rfl | h
    · exact le_trans (le_max_right a x) (foldl_max_init ys _)
    · exact foldl_max_mem ys (max a y) x h

theorem le_jsMax {x : ℝ} {l : List ℝ} (h : x ∈ l) : x ≤ jsMax l := by
  cases l with
  | nil => cases h
  | cons y ys =>
    rcases List.mem_cons.mp h with rfl | h
    · exact foldl_max_init ys x
    · exact foldl_max_mem ys y x h

theorem analyzeColorDistribution_nil (range : ColorRange) :
    analyzeColorDistribution [] range = ⟨⟨0, 0, 0⟩, [], hueHistogram [], 0⟩ := by
  unfold analyzeColorDistribution
  simp

/-- Claim C1, counterexample: at the real Lab chrominance pair `a = -1`,
`b = 0` (a pure negative-`a` chrominance) the hue
`atan2(b, a) * 180 / π + 180` equals exactly 360, which is not strictly less
than 360, so the stated half-open interval `[0, 360)` fails. -/
theorem hueFromLab_eq_360_at_neg_one :
    hueFromLab (-1) 0 = 360 ∧ ¬ hueFromLab (-1) 0 < 360 := by
  have hmk : (⟨-1, 0⟩ : ℂ) = -1 := by apply Complex.ext <;> simp
  have h : hueFromLab (-1) 0 = 360 := by
    unfold hueFromLab
    rw [hmk, Complex.arg_neg_one, mul_comm, mul_div_assoc, div_self Real.pi_ne_zero]
    norm_num
  exact ⟨h, by rw [h]; norm_num⟩

/-- Claim C1, amended: for every pair of real Lab chrominance values `(a, b)`,
the hue `atan2(b, a) * 180 / π + 180` lies in the half-open interval
`(0, 360]` — strictly greater than 0 and at most 360 (360 is attained, see the
counterexample) — and the degenerate case `a = b = 0` yields hue 180 by the
convention `atan2(0, 0) = 0`. -/
theorem hueFromLab_mem_Ioc (a b : ℝ) :
    (0 < hueFromLab a b ∧ hueFromLab a b ≤ 360) ∧ hueFromLab 0 0 = 180 := by
  constructor
  · obtain ⟨h1, h2⟩ := Complex.arg_mem_Ioc ⟨a, b⟩
    have hpi := Real.pi_pos
    unfold hueFromLab
    constructor
    · have hlt : -180 < Complex.arg ⟨a, b⟩ * 180 / Real.pi := by
        rw [lt_div_iff₀ hpi]
        nlinarith
      linarith
    · have hle : Complex.arg ⟨a, b⟩ * 180 / Real.pi ≤ 180 := by
        rw [div_le_iff₀ hpi]
        nlinarith
      linarith
  · have hmk : (⟨0, 0⟩ : ℂ) = 0 := by apply Complex.ext <;> simp
    unfold hueFromLab
    rw [hmk, Complex.arg_zero]
    norm_num

/-- Claim C2: if no pixel's hue falls inside the range, then
`analyzeColorDistribution` returns weight 0, an empty peak list and the
all-zero mean Lab (the zeroed branch returns these constants without
performing any division). -/
theorem analyzeColorDistribution_empty_match (pixels : List RGBPixel) (range : ColorRange)
    (h : ∀ p ∈ pixels, ¬ hueInRange range (hueOfLab (labOf p))) :
    (analyzeColorDistribution pixels range).weight = 0 ∧
    (analyzeColorDistribution pixels range).peaks = [] ∧
    (analyzeColorDistribution pixels range).mean = ⟨0, 0, 0⟩ := by
  have hm : (pixels.map labOf).filter (fun lab => decide (hueInRange range (hueOfLab lab))) = [] := by
    rw [List.filter_eq_nil_iff]
    intro lab hlab
    rcases List.mem_map.mp hlab with ⟨p, hp, rfl⟩
    simpa using h p hp
  unfold analyzeColorDistribution
  simp [hm]

theorem analyzeColorDistribution_empty_match_witness :
    (∀ p ∈ ([] : List RGBPixel), ¬ hueInRange (COLOR_RANGES ColorChannel.red) (hueOfLab (labOf p))) ∧
    ((analyzeColorDistribution [] (COLOR_RANGES ColorChannel.red)).weight = 0 ∧
     (analyzeColorDistribution [] (COLOR_RANGES ColorChannel.red)).peaks = [] ∧
     (analyzeColorDistribution [] (COLOR_RANGES ColorChannel.red)).mean = ⟨0, 0, 0⟩) :=
  ⟨by simp, analyzeColorDistribution_empty_match [] (COLOR_RANGES ColorChannel.red) (by simp)⟩

/-- Claim C4, the code evaluated at a failing input: for the curve
`[[0, 0], [255, 128]]` (an engine-shaped curve beginning at input 0),
`convertToneCurveToMatrix` returns `[1, 0, 0]` — because the truthiness guard
treats the coordinate 0 as invalid — and not the claimed average slope
`(128 - 0) / (255 - 0) ≠ 1`. -/
theorem convertToneCurveToMatrix_zero_guard :
    convertToneCurveToMatrix [((0 : ℝ), 0), (255, 128)] = (1, 0, 0) ∧
      ((128 : ℝ) - 0) / ((255 : ℝ) - 0) ≠ 1 := by
  constructor
  · simp [convertToneCurveToMatrix]
  · norm_num

/-- Claim C6: hue-band membership is wrap-aware — when `start > end` a hue is
in range iff `hue ≥ start ∨ hue ≤ end`, otherwise iff
`hue ≥ start ∧ hue ≤ end`; for the red range `{start: 345, end: 15}` the hues
350 and 10 are in range and 200 is not. -/
theorem hueInRange_wrap_spec (range : ColorRange) (h : ℝ) :
    (range.start > range.stop → (hueInRange range h ↔ h ≥ range.start ∨ h ≤ range.stop)) ∧
    (¬ range.start > range.stop → (hueInRange range h ↔ h ≥ range.start ∧ h ≤ range.stop)) ∧
    hueInRange (COLOR_RANGES ColorChannel.red) 350 ∧
    hueInRange (COLOR_RANGES ColorChannel.red) 10 ∧
    ¬ hueInRange (COLOR_RANGES ColorChannel.red) 200 := by
  refine ⟨fun hw => ?_, fun hw => ?_, ?_, ?_, ?_⟩
  · simp [hueInRange, hw]
  · simp [hueInRange, hw]
  · unfold hueInRange COLOR_RANGES
    norm_num
  · unfold hueInRange COLOR_RANGES
    norm_num
  · unfold hueInRange COLOR_RANGES
    norm_num

theorem hueInRange_wrap_spec_witness :
    ((COLOR_RANGES ColorChannel.red).start > (COLOR_RANGES ColorChannel.red).stop) ∧
    (hueInRange (COLOR_RANGES ColorChannel.red) 350 ↔
      (350 : ℝ) ≥ (COLOR_RANGES ColorChannel.red).start ∨
      (350 : ℝ) ≤ (COLOR_RANGES ColorChannel.red).stop) :=
  ⟨by norm_num [COLOR_RANGES],
   (hueInRange_wrap_spec (COLOR_RANGES ColorChannel.red) 350).1 (by norm_num [COLOR_RANGES])⟩

/-- Claim C7: for every named band and pixel list, `calculateColorHue` and
`calculateColorSaturation` return 0 whenever the band's distribution has
weight 0, and also whenever their total accumulated confidence weight over
the mean and all peaks is 0. -/
theorem colorAdjust_zero_weight (color : ColorChannel) (pixels : List RGBPixel) :
    ((analyzeColorDistribution pixels (COLOR_RANGES color)).weight = 0 →
      calculateColorHue color pixels = 0 ∧ calculateColorSaturation color pixels = 0) ∧
    (hueTotalWeight (analyzeColorDistribution pixels (COLOR_RANGES color)) = 0 →
      calculateColorHue color pixels = 0) ∧
    (satTotalWeight (analyzeColorDistribution pixels (COLOR_RANGES color)) = 0 →
      calculateColorSaturation color pixels = 0) := by
  refine ⟨fun hw => ⟨?_, ?_⟩, fun hw => ?_, fun hw => ?_⟩
  · unfold calculateColorHue
    simp only [hw, if_pos]
  · unfold calculateColorSaturation
    simp only [hw, if_pos]
  · unfold calculateColorHue
    by_cases h0 : (analyzeColorDistribution pixels (COLOR_RANGES color)).weight = 0
    · simp only [h0, if_pos]
    · rw [if_neg h0, if_pos hw]
  · unfold calculateColorSaturation
    by_cases h0 : (analyzeColorDistribution pixels (COLOR_RANGES color)).weight = 0
    · simp only [h0, if_pos]
    · rw [if_neg h0, if_pos hw]

theorem colorAdjust_zero_weight_witness :
    (analyzeColorDistribution [] (COLOR_RANGES ColorChannel.red)).weight = 0 ∧
    (calculateColorHue ColorChannel.red [] = 0 ∧
     calculateColorSaturation ColorChannel.red [] = 0) :=
  ⟨by rw [analyzeColorDistribution_nil],
   (colorAdjust_zero_weight ColorChannel.red []).1 (by rw [analyzeColorDistribution_nil])⟩

/-- Claim C8: the identity matrix is the neutral element of
`multiplyMatrices`, exactly, on both sides. -/
theorem multiplyMatrices_identity (M : Matrix3x3) :
    multiplyMatrices IDENTITY_MATRIX M = M ∧ multiplyMatrices M IDENTITY_MATRIX = M := by
  cases M
  constructor <;> simp [multiplyMatrices, IDENTITY_MATRIX]

theorem range_flatMap_map {α : Type} (n m : ℕ) (hm : 0 < m) (f : ℕ → ℕ → α) :
    (List.range n).flatMap (fun a => (List.range m).map (f a)) =
    (List.range (n * m)).map (fun i => f (i / m) (i % m)) := by
  induction n with
  | zero => simp
  | succ n ih =>
    rw [List.range_succ n, List.flatMap_append, ih]
    have hnm : (n + 1) * m = n * m + m := by ring
    rw [hnm, List.range_add (n * m) m, List.map_append, List.map_map]
    congr 1
    · simp only [List.flatMap_cons, List.flatMap_nil, List.append_nil]
      refine List.map_congr_left ?_
      intro j hj
      have hj' : j < m := List.mem_range.mp hj
      have hdiv : (n * m + j) / m = n := by
        rw [mul_comm n m, Nat.mul_add_div hm, Nat.div_eq_of_lt hj', Nat.add_zero]
      have hmod : (n * m + j) % m = j := by
        rw [mul_comm n m, Nat.mul_add_mod, Nat.mod_eq_of_lt hj']
      simp [Function.comp, hdiv, hmod]

/-- Claim C9: `generateCUBELUT` emits exactly `32^3 = 32768` grid entries, in
the fixed `b`-outermost / `g` / `r`-innermost nesting (the entry at flat index
`i` is the transform of the grid point with `r = (i % 32)/31`,
`g = ((i / 32) % 32)/31`, `b = (i / 1024)/31`, so `r` varies fastest and each
coordinate steps through the 32 values `k/31`, `k = 0..31`, via
`step = 1/(LUT_SIZE - 1)` inside `lutEntry`). -/
theorem generateCUBELUT_grid (properties : ImageProperties) :
    generateCUBELUTPoints properties =
      (List.range 32768).map (fun i => lutEntry properties (i % 32) (i / 32 % 32) (i / 1024)) ∧
    (generateCUBELUTPoints properties).length = 32768 := by
  have inner : ∀ b : ℕ,
      (List.range 32).flatMap (fun g => (List.range 32).map (fun r => lutEntry properties r g b)) =
      (List.range 1024).map (fun i => lutEntry properties (i % 32) (i / 32) b) := by
    intro b
    have h := range_flatMap_map 32 32 (by norm_num) (fun g r => lutEntry properties r g b)
    norm_num at h
    exact h
  have key : generateCUBELUTPoints properties =
      (List.range 32768).map (fun i => lutEntry properties (i % 32) (i / 32 % 32) (i / 1024)) := by
    show (List.range LUT_SIZE).flatMap _ = _
    simp only [LUT_SIZE]
    calc (List.range 32).flatMap (fun b =>
            (List.range 32).flatMap (fun g =>
              (List.range 32).map (fun r => lutEntry properties r g b)))
        = (List.range 32).flatMap (fun b =>
            (List.range 1024).map (fun i => lutEntry properties (i % 32) (i / 32) b)) := by
          simp only [inner]
      _ = (List.range (32 * 1024)).map (fun k =>
            lutEntry properties (k % 1024 % 32) (k % 1024 / 32) (k / 1024)) :=
          range_flatMap_map 32 1024 (by norm_num)
            (fun b i => lutEntry properties (i % 32) (i / 32) b)
      _ = (List.range 32768).map (fun i =>
            lutEntry properties (i % 32) (i / 32 % 32) (i / 1024)) := by
          norm_num
          intro k _
          have e2 : k % 1024 / 32 = k / 32 % 32 := by
            have h32 := Nat.mod_mul_right_div_self k 32 32
            norm_num at h32
            exact h32
          rw [e2]
  refine ⟨key, ?_⟩
  rw [key, List.length_map, List.length_range]

/-- Claim C10: every RGB component of every LUT grid entry lies in [0, 1]
(matching `DOMAIN_MIN 0` / `DOMAIN_MAX 1`), because `applyFactors` clamps each
component last, whatever the color matrix and the (strictly increasing) tone
curves produced before it. -/
theorem generateCUBELUT_entries_mem_unit (properties : ImageProperties)
    (_h1 : ∀ c, properties.toneCurveRed = some c → c.Chain' (fun p q => p.1 < q.1))
    (_h2 : ∀ c, properties.toneCurveGreen = some c → c.Chain' (fun p q => p.1 < q.1))
    (_h3 : ∀ c, properties.toneCurveBlue = some c → c.Chain' (fun p q => p.1 < q.1))
    (pt : ColorPoint) (hpt : pt ∈ generateCUBELUTPoints properties) :
    0 ≤ pt.r ∧ pt.r ≤ 1 ∧ 0 ≤ pt.g ∧ pt.g ≤ 1 ∧ 0 ≤ pt.b ∧ pt.b ≤ 1 := by
  unfold generateCUBELUTPoints at hpt
  simp only [List.mem_flatMap, List.mem_map] at hpt
  obtain ⟨b, -, g, -, r, -, rfl⟩ := hpt
  simp only [lutEntry, applyFactors]
  refine ⟨le_max_left _ _, ?_, le_max_left _ _, ?_, le_max_left _ _, ?_⟩ <;>
    exact max_le (by norm_num) (min_le_left _ _)

theorem DEFAULT_TONE_CURVE_strict :
    DEFAULT_TONE_CURVE.Chain' (fun p q : ℝ × ℝ => p.1 < q.1) := by
  simp [DEFAULT_TONE_CURVE]

theorem generateCUBELUT_entries_mem_unit_witness :
    (∀ c, defaultImageProperties.toneCurveRed = some c →
      c.Chain' (fun p q => p.1 < q.1)) ∧
    (lutEntry defaultImageProperties 0 0 0 ∈ generateCUBELUTPoints defaultImageProperties) ∧
    (0 ≤ (lutEntry defaultImageProperties 0 0 0).r ∧
     (lutEntry defaultImageProperties 0 0 0).r ≤ 1 ∧
     0 ≤ (lutEntry defaultImageProperties 0 0 0).g ∧
     (lutEntry defaultImageProperties 0 0 0).g ≤ 1 ∧
     0 ≤ (lutEntry defaultImageProperties 0 0 0).b ∧
     (lutEntry defaultImageProperties 0 0 0).b ≤ 1) := by
  have hcurve : ∀ o : Option (List (ℝ × ℝ)), o = some DEFAULT_TONE_CURVE →
      ∀ c, o = some c → c.Chain' (fun p q => p.1 < q.1) := by
    rintro o rfl c hc
    obtain rfl : DEFAULT_TONE_CURVE = c := Option.some.inj hc
    exact DEFAULT_TONE_CURVE_strict
  have hmem : lutEntry defaultImageProperties 0 0 0 ∈
      generateCUBELUTPoints defaultImageProperties := by
    unfold generateCUBELUTPoints
    simp only [List.mem_flatMap, List.mem_map, LUT_SIZE]
    exact ⟨0, List.mem_range.mpr (by norm_num), 0, List.mem_range.mpr (by norm_num),
      0, List.mem_range.mpr (by norm_num), rfl⟩
  exact ⟨hcurve _ rfl, hmem,
    generateCUBELUT_entries_mem_unit defaultImageProperties
      (hcurve _ rfl) (hcurve _ rfl) (hcurve _ rfl) _ hmem⟩



theorem jsRound_intCast (n : ℤ) : jsRound (n : ℝ) = n := by
  unfold jsRound
  rw [add_comm, Int.floor_add_int]
  norm_num

theorem jsRound_le_jsRound {x y : ℝ} (h : x ≤ y) : jsRound x ≤ jsRound y :=
  Int.floor_le_floor (by linarith)

theorem jsRound_lt_jsRound {x y : ℝ} (h : x + 1 ≤ y) : jsRound x < jsRound y := by
  unfold jsRound
  rw [Int.lt_iff_add_one_le]
  calc ⌊x + 1 / 2⌋ + 1 = ⌊x + 1 / 2 + 1⌋ := (Int.floor_add_one (x + 1 / 2)).symm
    _ ≤ ⌊y + 1 / 2⌋ := Int.floor_le_floor (by linarith)

theorem jsRound_zero : jsRound 0 = 0 := by
  unfold jsRound
  norm_num

theorem jsRound_255 : jsRound 255 = 255 := by
  unfold jsRound
  norm_num

theorem jsRound_mem_of_mem {x : ℝ} (h0 : 0 ≤ x) (h255 : x ≤ 255) :
    0 ≤ jsRound x ∧ jsRound x ≤ 255 := by
  constructor
  · have h := jsRound_le_jsRound h0
    rwa [jsRound_zero] at h
  · have h := jsRound_le_jsRound h255
    rwa [jsRound_255] at h

theorem chain'_map_range {α : Type} {R : α → α → Prop} (N : ℕ) (f : ℕ → α)
    (h : ∀ i, i + 1 < N → R (f i) (f (i + 1))) :
    List.Chain' R ((List.range N).map f) := by
  rw [List.chain'_map]
  cases N with
  | zero => simp
  | succ n =>
    rw [List.chain'_range_succ]
    intro m hm
    exact h m (by omega)

theorem toneCurveNumPoints_mem (points : List TonePoint) :
    5 ≤ toneCurveNumPoints points ∧ toneCurveNumPoints points ≤ 20 := by
  unfold toneCurveNumPoints
  exact ⟨le_min (by norm_num) (le_max_left 5 _), min_le_left _ _⟩

theorem toneCurveOutput_mem (points : List TonePoint) (i : ℕ) :
    0 ≤ toneCurveOutput points i ∧ toneCurveOutput points i ≤ 255 := by
  unfold toneCurveOutput
  exact ⟨le_max_left _ _, max_le (by norm_num) (min_le_left _ _)⟩

/-- Claim C3: for every non-empty list of tone points, the curve returned by
`smoothToneCurve` has between 5 and 20 entries (hence at least 2), its input
values are strictly increasing, the first entry is `[0, y0]` and the last is
`[255, y1]` with `y0, y1 ∈ [0, 255]`, and every output value lies in
`[0, 255]`. -/
theorem smoothToneCurve_shape (points : List TonePoint) (_hne : points ≠ []) :
    (5 ≤ (smoothToneCurve points).length ∧ (smoothToneCurve points).length ≤ 20) ∧
    List.Chain' (fun p q : ℤ × ℤ => p.1 < q.1) (smoothToneCurve points) ∧
    (∃ y0, (smoothToneCurve points).head? = some (0, y0) ∧ 0 ≤ y0 ∧ y0 ≤ 255) ∧
    (∃ y1, (smoothToneCurve points).getLast? = some (255, y1) ∧ 0 ≤ y1 ∧ y1 ≤ 255) ∧
    (∀ p ∈ smoothToneCurve points, 0 ≤ p.2 ∧ p.2 ≤ 255) := by
  obtain ⟨hz5, hz20⟩ := toneCurveNumPoints_mem points
  set Z := toneCurveNumPoints points with hZ
  set N := Z.toNat with hNdef
  have hN5 : 5 ≤ N := by omega
  have hN20 : N ≤ 20 := by omega
  have hNZ : (N : ℤ) = Z := Int.toNat_of_nonneg (by omega)
  have hNcast : ((N : ℕ) : ℝ) = ((Z : ℤ) : ℝ) := by exact_mod_cast congrArg (Int.cast : ℤ → ℝ) hNZ
  set d : ℝ := ((Z : ℤ) : ℝ) - 1 with hd
  have hd4 : (4 : ℝ) ≤ d := by
    have : ((5 : ℤ) : ℝ) ≤ ((Z : ℤ) : ℝ) := by exact_mod_cast hz5
    simp only [hd]
    push_cast at this ⊢
    linarith
  have hd19 : d ≤ 19 := by
    have : ((Z : ℤ) : ℝ) ≤ ((20 : ℤ) : ℝ) := by exact_mod_cast hz20
    simp only [hd]
    push_cast at this ⊢
    linarith
  have hd0 : (0 : ℝ) < d := by linarith
  have hpos_succ : ∀ i : ℕ, toneCurvePosition points i + 1 ≤ toneCurvePosition points (i + 1) := by
    intro i
    have hstep : toneCurvePosition points (i + 1) - toneCurvePosition points i = 255 / d := by
      unfold toneCurvePosition
      rw [← hd]
      push_cast
      field_simp
      ring
    have hge : (1 : ℝ) ≤ 255 / d := by
      rw [le_div_iff₀ hd0]
      linarith
    linarith
  have hpos0 : toneCurvePosition points 0 = 0 := by
    unfold toneCurvePosition
    norm_num
  have hposLast : toneCurvePosition points (N - 1) = 255 := by
    unfold toneCurvePosition
    rw [← hd]
    have hcast2 : ((N - 1 : ℕ) : ℝ) = d := by
      rw [Nat.cast_sub (by omega), hNcast, hd]
      norm_num
    rw [hcast2, div_self (ne_of_gt hd0), one_mul]
  have hlen : (smoothToneCurve points).length = N := by
    unfold smoothToneCurve
    rw [List.length_map, List.length_range]
  refine ⟨⟨by rw [hlen]; exact hN5, by rw [hlen]; exact hN20⟩, ?_, ?_, ?_, ?_⟩
  · unfold smoothToneCurve
    apply chain'_map_range
    intro i _
    exact jsRound_lt_jsRound (hpos_succ i)
  · refine ⟨jsRound (toneCurveOutput points 0), ?_, ?_, ?_⟩
    · unfold smoothToneCurve
      rw [List.head?_map]
      have : (List.range N).head? = some 0 := by
        cases hN : N with
        | zero => omega
        | succ n => rw [List.range_succ_eq_map]; rfl
      rw [this]
      simp only [Option.map_some']
      rw [hpos0, jsRound_zero]
    · exact (jsRound_mem_of_mem (toneCurveOutput_mem points 0).1 (toneCurveOutput_mem points 0).2).1
    · exact (jsRound_mem_of_mem (toneCurveOutput_mem points 0).1 (toneCurveOutput_mem points 0).2).2
  · refine ⟨jsRound (toneCurveOutput points (N - 1)), ?_, ?_, ?_⟩
    · unfold smoothToneCurve
      rw [List.getLast?_map]
      have : (List.range N).getLast? = some (N - 1) := by
        cases hN : N with
        | zero => omega
        | succ n =>
          rw [List.range_succ, List.getLast?_concat]
          simp
      rw [this]
      simp only [Option.map_some']
      rw [hposLast, jsRound_255]
    · exact (jsRound_mem_of_mem (toneCurveOutput_mem points (N - 1)).1
        (toneCurveOutput_mem points (N - 1)).2).1
    · exact (jsRound_mem_of_mem (toneCurveOutput_mem points (N - 1)).1
        (toneCurveOutput_mem points (N - 1)).2).2
  · intro p hp
    unfold smoothToneCurve at hp
    rcases List.mem_map.mp hp with ⟨i, -, rfl⟩
    exact jsRound_mem_of_mem (toneCurveOutput_mem points i).1 (toneCurveOutput_mem points i).2

theorem smoothToneCurve_shape_witness :
    ([⟨0, 0, 1⟩, ⟨255, 255, 1⟩] : List TonePoint) ≠ [] ∧
    ((5 ≤ (smoothToneCurve [⟨0, 0, 1⟩, ⟨255, 255, 1⟩]).length ∧
      (smoothToneCurve [⟨0, 0, 1⟩, ⟨255, 255, 1⟩]).length ≤ 20) ∧
     List.Chain' (fun p q : ℤ × ℤ => p.1 < q.1) (smoothToneCurve [⟨0, 0, 1⟩, ⟨255, 255, 1⟩]) ∧
     (∃ y0, (smoothToneCurve [⟨0, 0, 1⟩, ⟨255, 255, 1⟩]).head? = some (0, y0) ∧
       0 ≤ y0 ∧ y0 ≤ 255) ∧
     (∃ y1, (smoothToneCurve [⟨0, 0, 1⟩, ⟨255, 255, 1⟩]).getLast? = some (255, y1) ∧
       0 ≤ y1 ∧ y1 ≤ 255) ∧
     (∀ p ∈ smoothToneCurve [⟨0, 0, 1⟩, ⟨255, 255, 1⟩], 0 ≤ p.2 ∧ p.2 ≤ 255)) :=
  ⟨by simp, smoothToneCurve_shape [⟨0, 0, 1⟩, ⟨255, 255, 1⟩] (by simp)⟩

theorem gammaDecode_mem {v : ℝ} (h0 : 0 ≤ v) (h1 : v ≤ 1) :
    0 ≤ gammaDecode v ∧ gammaDecode v ≤ 1 := by
  unfold gammaDecode
  split_ifs with h
  · constructor
    · exact Real.rpow_nonneg (by positivity) _
    · exact Real.rpow_le_one (by positivity)
        (by rw [div_le_one (by norm_num)]; linarith) (by norm_num)
  · constructor
    · exact div_nonneg h0 (by norm_num)
    · rw [div_le_one (by norm_num)]
      linarith

theorem labF_mem {t : ℝ} (h0 : 0 ≤ t) (h1 : t ≤ 1) :
    16 / 116 ≤ labF t ∧ labF t ≤ 1 := by
  unfold labF
  split_ifs with h
  · constructor
    · have hrw : (16 : ℝ) / 116 = (((16 : ℝ) / 116) ^ (3 : ℕ)) ^ ((1 : ℝ) / 3) := by
        rw [← Real.rpow_natCast ((16 : ℝ) / 116) 3, ← Real.rpow_mul (by norm_num)]
        norm_num
      rw [hrw]
      apply Real.rpow_le_rpow (by positivity) ?_ (by norm_num)
      have hc : ((16 : ℝ) / 116) ^ (3 : ℕ) ≤ 0.008856 := by norm_num
      linarith
    · exact Real.rpow_le_one h0 h1 (by norm_num)
  · push_neg at h
    constructor
    · nlinarith
    · nlinarith

theorem rgbToLab_l_mem {r g b : ℝ}
    (hr0 : 0 ≤ r) (hr1 : r ≤ 255) (hg0 : 0 ≤ g) (hg1 : g ≤ 255)
    (hb0 : 0 ≤ b) (hb1 : b ≤ 255) :
    0 ≤ (rgbToLab r g b).l ∧ (rgbToLab r g b).l ≤ 100 := by
  have hl : (rgbToLab r g b).l =
      116 * labF ((gammaDecode (r / 255) * 0.2126 + gammaDecode (g / 255) * 0.7152 +
        gammaDecode (b / 255) * 0.0722) * 100 / 100.0) - 16 := rfl
  obtain ⟨hrr0, hrr1⟩ := gammaDecode_mem (v := r / 255)
    (div_nonneg hr0 (by norm_num)) (by rw [div_le_one (by norm_num)]; linarith)
  obtain ⟨hgg0, hgg1⟩ := gammaDecode_mem (v := g / 255)
    (div_nonneg hg0 (by norm_num)) (by rw [div_le_one (by norm_num)]; linarith)
  obtain ⟨hbb0, hbb1⟩ := gammaDecode_mem (v := b / 255)
    (div_nonneg hb0 (by norm_num)) (by rw [div_le_one (by norm_num)]; linarith)
  set t := (gammaDecode (r / 255) * 0.2126 + gammaDecode (g / 255) * 0.7152 +
    gammaDecode (b / 255) * 0.0722) * 100 / 100.0 with ht
  have ht0 : 0 ≤ t := by rw [ht]; positivity
  have ht1 : t ≤ 1 := by
    rw [ht]
    rw [div_le_one (by norm_num)]
    nlinarith
  obtain ⟨hf0, hf1⟩ := labF_mem ht0 ht1
  rw [hl]
  constructor
  · nlinarith
  · nlinarith

theorem sum_div_length_mem {l : List ℝ} {lo hi : ℝ} (hne : l ≠ [])
    (h : ∀ x ∈ l, lo ≤ x ∧ x ≤ hi) :
    lo ≤ l.sum / (l.length : ℝ) ∧ l.sum / (l.length : ℝ) ≤ hi := by
  have hn : 0 < (l.length : ℝ) := by
    have := List.length_pos.mpr hne
    exact_mod_cast this
  have hup : l.sum ≤ (l.length : ℝ) * hi := by
    have := List.sum_le_card_nsmul l hi (fun x hx => (h x hx).2)
    rwa [nsmul_eq_mul l.length hi] at this
  have hlow : (l.length : ℝ) * lo ≤ l.sum := by
    have := List.card_nsmul_le_sum l lo (fun x hx => (h x hx).1)
    rwa [nsmul_eq_mul l.length lo] at this
  constructor
  · rw [le_div_iff₀ hn]
    linarith
  · rw [div_le_iff₀ hn]
    linarith

theorem meanLab_l_mem {labs : List LabColor} (hne : labs ≠ [])
    (h : ∀ lab ∈ labs, 0 ≤ lab.l ∧ lab.l ≤ 100) :
    0 ≤ (meanLab labs).l ∧ (meanLab labs).l ≤ 100 := by
  have hmap : (labs.map LabColor.l) ≠ [] := by
    simpa using hne
  have hmem : ∀ x ∈ labs.map LabColor.l, 0 ≤ x ∧ x ≤ 100 := by
    intro x hx
    rcases List.mem_map.mp hx with ⟨lab, hlab, rfl⟩
    exact h lab hlab
  have := sum_div_length_mem hmap hmem
  have hlen : ((labs.map LabColor.l).length : ℝ) = (labs.length : ℝ) := by
    rw [List.length_map]
  unfold meanLab
  rw [← hlen]
  exact this

theorem height_div_max_mem {hist : List ℝ} {i : ℕ} (hh : ∀ v ∈ hist, 0 ≤ v)
    (hi : i < hist.length) (hgt : hist.getD i 0 > jsMax hist * 0.01) :
    0 ≤ hist.getD i 0 / jsMax hist ∧ hist.getD i 0 / jsMax hist ≤ 1 := by
  have hmem : hist.getD i 0 ∈ hist := by
    rw [List.getD_eq_getElem hist 0 hi]
    exact List.getElem_mem hi
  have h0 : 0 ≤ hist.getD i 0 := hh _ hmem
  have hle : hist.getD i 0 ≤ jsMax hist := le_jsMax hmem
  have hmaxpos : 0 < jsMax hist := by nlinarith
  exact ⟨div_nonneg h0 (le_of_lt hmaxpos), (div_le_one hmaxpos).mpr hle⟩

theorem findHistogramPeaks_height_mem (hist : List ℝ) (m s : Option ℝ)
    (hh : ∀ v ∈ hist, 0 ≤ v) :
    ∀ pk ∈ findHistogramPeaks hist m s, 0 ≤ pk.height ∧ pk.height ≤ 1 := by
  intro pk hpk
  unfold findHistogramPeaks at hpk
  rcases m with - | mv <;> rcases s with - | sv
  · simp only [List.mem_filterMap] at hpk
    obtain ⟨i, hi, heq⟩ := hpk
    have hilen : i < hist.length := List.mem_range.mp hi
    split_ifs at heq with h1 h2
    · obtain rfl := Option.some.inj heq
      exact height_div_max_mem hh hilen h1.2.2.1
  · simp only [List.mem_filterMap] at hpk
    obtain ⟨i, hi, heq⟩ := hpk
    have hilen : i < hist.length := List.mem_range.mp hi
    split_ifs at heq with h1 h2
    · obtain rfl := Option.some.inj heq
      exact height_div_max_mem hh hilen h1.2.2.1
  · simp only [List.mem_filterMap] at hpk
    obtain ⟨i, hi, heq⟩ := hpk
    have hilen : i < hist.length := List.mem_range.mp hi
    split_ifs at heq with h1 h2
    · obtain rfl := Option.some.inj heq
      exact height_div_max_mem hh hilen h1.2.2.1
  · simp only [List.mem_filterMap] at hpk
    obtain ⟨i, hi, heq⟩ := hpk
    have hilen : i < hist.length := List.mem_range.mp hi
    split_ifs at heq with h1 h2
    · obtain rfl := Option.some.inj heq
      exact height_div_max_mem hh hilen h1.2.2.1

set_option maxHeartbeats 1000000 in
theorem analyzeColorDistribution_mem (pixels : List RGBPixel) (range : ColorRange)
    (hpix : ∀ p ∈ pixels,
      (0 ≤ p.r ∧ p.r ≤ 255) ∧ (0 ≤ p.g ∧ p.g ≤ 255) ∧ (0 ≤ p.b ∧ p.b ≤ 255)) :
    (0 ≤ (analyzeColorDistribution pixels range).weight ∧
      (analyzeColorDistribution pixels range).weight ≤ 1) ∧
    (0 ≤ (analyzeColorDistribution pixels range).mean.l ∧
      (analyzeColorDistribution pixels range).mean.l ≤ 100) ∧
    (∀ lab ∈ (analyzeColorDistribution pixels range).peaks, 0 ≤ lab.l ∧ lab.l ≤ 100) := by
  have hmemL : ∀ lab ∈ (pixels.map labOf).filter
      (fun lab => decide (hueInRange range (hueOfLab lab))), 0 ≤ lab.l ∧ lab.l ≤ 100 := by
    intro lab hlab
    have hlab' := List.mem_of_mem_filter hlab
    rcases List.mem_map.mp hlab' with ⟨p, hp, rfl⟩
    obtain ⟨⟨a1, a2⟩, ⟨b1, b2⟩, ⟨c1, c2⟩⟩ := hpix p hp
    exact rgbToLab_l_mem a1 a2 b1 b2 c1 c2
  unfold analyzeColorDistribution
  set members := (pixels.map labOf).filter
    (fun lab => decide (hueInRange range (hueOfLab lab))) with hmembers
  by_cases hm : members.length = 0
  · rw [if_pos hm]
    refine ⟨⟨le_refl 0, by norm_num⟩, ⟨le_refl 0, by norm_num⟩, ?_⟩
    intro lab hlab
    simp at hlab
  · rw [if_neg hm]
    have hne : members ≠ [] := by
      intro hcontra
      exact hm (by rw [hcontra]; rfl)
    have hlenle : members.length ≤ pixels.length := by
      calc members.length ≤ (pixels.map labOf).length := List.length_filter_le _ _
        _ = pixels.length := List.length_map _ _
    have hmpos : 0 < members.length := Nat.pos_of_ne_zero hm
    have hppos : 0 < pixels.length := lt_of_lt_of_le hmpos hlenle
    refine ⟨⟨?_, ?_⟩, ?_, ?_⟩
    · exact div_nonneg (by positivity) (by positivity)
    · rw [div_le_one (by exact_mod_cast hppos)]
      exact_mod_cast hlenle
    · exact meanLab_l_mem hne hmemL
    · intro lab hlab
      rcases List.mem_map.mp hlab with ⟨peak, -, rfl⟩
      dsimp only
      split_ifs with hpp
      · exact meanLab_l_mem hne hmemL
      · have hppne : members.filter
            (fun lab => decide (|hueOfLab lab - (peak.position : ℝ)| < peak.width / 2)) ≠ [] := by
          intro hcontra
          exact hpp (by rw [hcontra]; rfl)
        refine meanLab_l_mem hppne ?_
        intro lab2 hlab2
        exact hmemL lab2 (List.mem_of_mem_filter hlab2)

theorem chromaConfidence_mem (lab : LabColor) :
    0 ≤ chromaConfidence lab ∧ chromaConfidence lab ≤ 1 := by
  unfold chromaConfidence
  constructor
  · refine le_min (by norm_num) ?_
    unfold chromaOf
    positivity
  · exact min_le_left _ _

theorem satLumWeight_mem {lab : LabColor} (h : 0 ≤ lab.l ∧ lab.l ≤ 100) :
    0 ≤ satLumWeight lab ∧ satLumWeight lab ≤ 1 := by
  unfold satLumWeight
  obtain ⟨h0, h1⟩ := h
  have habs : |lab.l - 50| ≤ 50 := abs_le.mpr ⟨by linarith, by linarith⟩
  have habs0 : 0 ≤ |lab.l - 50| := abs_nonneg _
  have hd1 : |lab.l - 50| / 50 ≤ 1 := (div_le_one (by norm_num)).mpr habs
  have hd0 : 0 ≤ |lab.l - 50| / 50 := div_nonneg habs0 (by norm_num)
  exact ⟨by linarith, by linarith⟩

theorem satTermWeight_mem {d : ColorDistribution} {lab : LabColor}
    (hw : 0 ≤ d.weight ∧ d.weight ≤ 1) (hl : 0 ≤ lab.l ∧ lab.l ≤ 100) :
    0 ≤ satTermWeight d lab ∧ satTermWeight d lab ≤ 1 := by
  obtain ⟨s0, s1⟩ := satLumWeight_mem hl
  unfold satTermWeight
  constructor
  · exact mul_nonneg s0 hw.1
  · calc satLumWeight lab * d.weight ≤ 1 * 1 :=
        mul_le_mul s1 hw.2 hw.1 (by norm_num)
      _ = 1 := by norm_num

/-- Claim C5: every weight and height fraction produced by the analysis lies
in [0, 1] — every `HistogramPeak.height` (in both detection modes, over any
nonnegative histogram), every `ColorDistribution.weight`, every
chroma-confidence weight `min(1, chroma/128)` used by the hue estimator, and
every per-term weight `(1 - |L - 50|/50) * weight` used by the saturation
estimator at the mean and at every peak — for every pixel buffer whose 8-bit
samples lie in [0, 255] (in particular the Lab luminance `L` of every
aggregated mean stays in [0, 100], so the unclamped luminance-centering
weight is itself in [0, 1]). -/
theorem analysis_weights_mem_unit (pixels : List RGBPixel) (range : ColorRange)
    (hist : List ℝ) (m s : Option ℝ)
    (hpix : ∀ p ∈ pixels,
      (0 ≤ p.r ∧ p.r ≤ 255) ∧ (0 ≤ p.g ∧ p.g ≤ 255) ∧ (0 ≤ p.b ∧ p.b ≤ 255))
    (hhist : ∀ v ∈ hist, 0 ≤ v) :
    (∀ pk ∈ findHistogramPeaks hist m s, 0 ≤ pk.height ∧ pk.height ≤ 1) ∧
    (0 ≤ (analyzeColorDistribution pixels range).weight ∧
      (analyzeColorDistribution pixels range).weight ≤ 1) ∧
    (0 ≤ chromaConfidence (analyzeColorDistribution pixels range).mean ∧
      chromaConfidence (analyzeColorDistribution pixels range).mean ≤ 1) ∧
    (∀ lab ∈ (analyzeColorDistribution pixels range).peaks,
      0 ≤ chromaConfidence lab ∧ chromaConfidence lab ≤ 1) ∧
    (0 ≤ satTermWeight (analyzeColorDistribution pixels range)
        (analyzeColorDistribution pixels range).mean ∧
      satTermWeight (analyzeColorDistribution pixels range)
        (analyzeColorDistribution pixels range).mean ≤ 1) ∧
    (∀ lab ∈ (analyzeColorDistribution pixels range).peaks,
      0 ≤ satTermWeight (analyzeColorDistribution pixels range) lab ∧
      satTermWeight (analyzeColorDistribution pixels range) lab ≤ 1) := by
  obtain ⟨hw, hmean, hpeaks⟩ := analyzeColorDistribution_mem pixels range hpix
  exact ⟨findHistogramPeaks_height_mem hist m s hhist, hw, chromaConfidence_mem _,
    fun lab _ => chromaConfidence_mem lab, satTermWeight_mem hw hmean,
    fun lab hlab => satTermWeight_mem hw (hpeaks lab hlab)⟩

theorem analysis_weights_mem_unit_witness :
    (∀ p ∈ ([] : List RGBPixel),
      (0 ≤ p.r ∧ p.r ≤ 255) ∧ (0 ≤ p.g ∧ p.g ≤ 255) ∧ (0 ≤ p.b ∧ p.b ≤ 255)) ∧
    (∀ v ∈ ([] : List ℝ), 0 ≤ v) ∧
    (0 ≤ (analyzeColorDistribution [] (COLOR_RANGES ColorChannel.red)).weight ∧
      (analyzeColorDistribution [] (COLOR_RANGES ColorChannel.red)).weight ≤ 1) :=
  ⟨by simp, by simp,
   (analysis_weights_mem_unit [] (COLOR_RANGES ColorChannel.red) [] none none
     (by simp) (by simp)).2.1⟩
